import Mathlib

/-!
Verification of the price-estimation core of the potato-price-api repository
(src/api/app/estimator.py, src/api/app/prices.py, src/api/app/tasks.py).

Python dictionaries mapping market names to numbers are embedded as
association lists `List (String × ℚ)`; Python floats are embedded as exact
rationals (real arithmetic), so every value is finite and `math.isfinite`
is identically true in the model. Fallible Python code in the estimator is
total, and the embedding keeps it total.
-/

namespace PotatoPrice

/-- Model of Python `d.get(k, default)` on a dict embedded as an association
list: the value at the first matching key, or the default when the key is
absent. -/
def dictGet : List (String × ℚ) → String → ℚ → ℚ
  | [], _, dflt => dflt
  | (k, v) :: rest, m, dflt => if m == k then v else dictGet rest m dflt

/-- Weight of market `m` in `distance_weighted_base` (estimator.py lines
10-11): `d = max(0.0, float(distances.get(m, 0.0)))`, weight `1/(1+d)`. -/
def weight (distances : List (String × ℚ)) (m : String) : ℚ :=
  1 / (1 + max 0 (dictGet distances m 0))

/-- Embedding of `distance_weighted_base(prices, distances)` from
estimator.py lines 5-13: a weight per key of `prices`, the normalizer
`z = sum(weights.values()) or 1.0` (the Python `or` turns a zero sum into
1.0), and the weighted sum of prices divided by `z`. -/
def distance_weighted_base (prices distances : List (String × ℚ)) : ℚ :=
  let z0 := (prices.map (fun mp => weight distances mp.1)).sum
  let z := if z0 = 0 then 1 else z0
  (prices.map (fun mp => weight distances mp.1 * mp.2)).sum / z

/-- Embedding of `ewma(curr, prev, alpha=0.4)` from estimator.py lines
16-19. -/
def ewma (curr : ℚ) (prev : Option ℚ) (alpha : ℚ) : ℚ :=
  match prev with
  | none => curr
  | some p => alpha * curr + (1 - alpha) * p

/-- Embedding of `logistics_map.get(logistics_mode, 1.0)` with
`logistics_map = {"farmgate": 0.90, "wholesale": 1.00, "retail": 1.20}`
(estimator.py lines 39-41). -/
def logistics_map_get (mode : String) : ℚ :=
  if mode = "farmgate" then 9/10
  else if mode = "wholesale" then 1
  else if mode = "retail" then 6/5
  else 1

/-- Round a rational to the nearest integer, ties to even, as Python
`round` does on an exactly representable value. -/
def roundHalfEven (q : ℚ) : ℤ :=
  let f := ⌊q⌋
  let r := q - f
  if r < 1/2 then f
  else if 1/2 < r then f + 1
  else if Even f then f else f + 1

/-- Model of Python `round(x, 3)` used to build the explain dict
(estimator.py lines 57-64): rounding to 3 decimal places, ties to even. -/
def pyRound3 (q : ℚ) : ℚ :=
  (roundHalfEven (q * 1000) : ℚ) / 1000

/-- The explain dict returned by `estimate` (estimator.py lines 57-64). -/
structure Explain where
  base_smoothed : ℚ
  season_mult : ℚ
  logistics_mult : ℚ
  shock_mult : ℚ
  weather_mult : ℚ
  variety_mult : ℚ
  deriving Repr, DecidableEq

/-- Embedding of `estimate(...)` from estimator.py lines 22-65. It returns
the triple `(p_hat, (p_hat - sigma, p_hat + sigma), explain)`. The fallback
sigma is `max(0.5, 0.03 * p_hat) if isfinite(p_hat) else 1.0`; rationals
are always finite, so the model takes the first branch. -/
def estimate (prices_now distances : List (String × ℚ)) (prev_base : Option ℚ)
    (season_index : ℚ) (logistics_mode : String) (shock_index : ℚ)
    (variety_grade_factor : ℚ) (weather_index : ℚ)
    (k1 k2 k3 alpha : ℚ) : ℚ × (ℚ × ℚ) × Explain :=
  let base_raw := distance_weighted_base prices_now distances
  let base_smoothed := ewma base_raw prev_base alpha
  let adj_season := 1 + k1 * season_index
  let adj_logistics := logistics_map_get logistics_mode
  let adj_shock := 1 + k2 * shock_index
  let adj_weather := 1 + k3 * weather_index
  let p_hat := base_smoothed * adj_season * adj_logistics * adj_shock
      * adj_weather * variety_grade_factor
  let sigma := max (1/2) (3/100 * p_hat)
  (p_hat, (p_hat - sigma, p_hat + sigma),
    { base_smoothed := pyRound3 base_smoothed
      season_mult := pyRound3 adj_season
      logistics_mult := pyRound3 adj_logistics
      shock_mult := pyRound3 adj_shock
      weather_mult := pyRound3 adj_weather
      variety_mult := pyRound3 variety_grade_factor })

/-- Python default values of the keyword arguments of `estimate`
(estimator.py lines 26-34), bundled for call sites that rely on them. -/
def defaultK1 : ℚ := 12/100
def defaultK2 : ℚ := 8/100
def defaultK3 : ℚ := 12/100
def defaultAlpha : ℚ := 2/5

/-- The value prices.py lines 119-126 persists into ModelState for the
location after an estimate call: `explain["base_smoothed"]`, i.e. the
3-decimal-rounded smoothed base, with the default k and alpha values
(the route never overrides them). -/
def persistedBase (prices_now distances : List (String × ℚ))
    (prev_base : Option ℚ) (season_index : ℚ) (logistics_mode : String)
    (shock_index : ℚ) (variety_grade_factor : ℚ) (weather_index : ℚ) : ℚ :=
  (estimate prices_now distances prev_base season_index logistics_mode
    shock_index variety_grade_factor weather_index
    defaultK1 defaultK2 defaultK3 defaultAlpha).2.2.base_smoothed

/-- Every market weight is strictly positive: the clamped distance is
nonnegative, so `1 + d ≥ 1`. -/
lemma weight_pos (distances : List (String × ℚ)) (m : String) :
    0 < weight distances m := by
  unfold weight
  have h0 : (0:ℚ) ≤ max 0 (dictGet distances m 0) := le_max_left _ _
  have h1 : (0:ℚ) < 1 + max 0 (dictGet distances m 0) := by linarith
  exact div_pos one_pos h1

/-- The sum of the weights over a non-empty prices list is strictly
positive. -/
lemma weights_sum_pos (prices distances : List (String × ℚ))
    (hne : prices ≠ []) :
    0 < (prices.map fun mp => weight distances mp.1).sum := by
  refine List.sum_pos _ ?_ ?_
  · intro x hx
    obtain ⟨mp, _, rfl⟩ := List.mem_map.mp hx
    exact weight_pos distances mp.1
  · simpa using hne

/-- On a non-empty prices list the `or 1.0` branch is not taken:
`distance_weighted_base` divides by the genuine weight sum. -/
lemma distance_weighted_base_nonempty (prices distances : List (String × ℚ))
    (hne : prices ≠ []) :
    distance_weighted_base prices distances =
      (prices.map fun mp => weight distances mp.1 * mp.2).sum /
        (prices.map fun mp => weight distances mp.1).sum := by
  unfold distance_weighted_base
  dsimp only
  rw [if_neg (ne_of_gt (weights_sum_pos prices distances hne))]

/-- C1. The function `distance_weighted_base` (estimator.py lines 5-13)
computes the weighted average over exactly the keys of `prices`: each
weight is `1/(1 + max 0 d)` with `d` the looked-up distance defaulting
to 0, the normalizer is the genuine (strictly positive) weight sum
whenever `prices` is non-empty, and the empty prices map yields 0
because the divisor falls back to 1. -/
theorem distance_weighted_base_spec (prices distances : List (String × ℚ)) :
    (∀ m, weight distances m = 1 / (1 + max 0 (dictGet distances m 0))) ∧
    (∀ m dflt, dictGet [] m dflt = dflt) ∧
    distance_weighted_base [] distances = 0 ∧
    (prices ≠ [] →
      0 < (prices.map fun mp => weight distances mp.1).sum ∧
      distance_weighted_base prices distances =
        (prices.map fun mp => weight distances mp.1 * mp.2).sum /
          (prices.map fun mp => weight distances mp.1).sum) := by
  refine ⟨fun m => rfl, fun m dflt => rfl, by simp [distance_weighted_base],
    fun hne => ?_⟩
  exact ⟨weights_sum_pos prices distances hne,
    distance_weighted_base_nonempty prices distances hne⟩

/-- C1 witness: the characterization evaluated at a concrete one-market
input. -/
theorem distance_weighted_base_spec_witness :
    0 < ([(("A":String), (100:ℚ))].map
        fun mp => weight [(("A":String), (7:ℚ))] mp.1).sum ∧
    distance_weighted_base [(("A":String), (100:ℚ))] [(("A":String), (7:ℚ))] =
      ([(("A":String), (100:ℚ))].map
        fun mp => weight [(("A":String), (7:ℚ))] mp.1 * mp.2).sum /
      ([(("A":String), (100:ℚ))].map
        fun mp => weight [(("A":String), (7:ℚ))] mp.1).sum :=
  (distance_weighted_base_spec [("A", 100)] [("A", 7)]).2.2.2 (by decide)

/-- C2. The function `ewma` (estimator.py lines 16-19) returns the raw
value when no previous value exists, returns `alpha*raw + (1-alpha)*prev`
otherwise, and in particular `ewma 100 90 0.4 = 94` exactly. -/
theorem ewma_spec :
    (∀ r a : ℚ, ewma r none a = r) ∧
    (∀ r p a : ℚ, ewma r (some p) a = a * r + (1 - a) * p) ∧
    ewma 100 (some 90) (2/5) = 94 := by
  refine ⟨fun r a => rfl, fun r p a => rfl, ?_⟩
  norm_num [ewma]

/-- C3. The point estimate returned by `estimate` (estimator.py lines
45-52) is the smoothed base times the product of the five factors —
season `1 + k1*s`, the logistics table lookup, shock `1 + k2*sh`, weather
`1 + k3*w`, and the variety factor — and the same value is obtained with
the factors multiplied in any order (any permutation of the factor
list). -/
theorem estimate_point_product (prices distances : List (String × ℚ))
    (prev : Option ℚ) (s : ℚ) (mode : String) (sh v w k1 k2 k3 alpha : ℚ) :
    (estimate prices distances prev s mode sh v w k1 k2 k3 alpha).1 =
      ewma (distance_weighted_base prices distances) prev alpha *
        ((1 + k1 * s) * logistics_map_get mode * (1 + k2 * sh)
          * (1 + k3 * w) * v) ∧
    ∀ l : List ℚ,
      l.Perm [1 + k1 * s, logistics_map_get mode, 1 + k2 * sh, 1 + k3 * w, v] →
      (estimate prices distances prev s mode sh v w k1 k2 k3 alpha).1 =
        ewma (distance_weighted_base prices distances) prev alpha * l.prod := by
  have h1 : (estimate prices distances prev s mode sh v w k1 k2 k3 alpha).1 =
      ewma (distance_weighted_base prices distances) prev alpha *
        ((1 + k1 * s) * logistics_map_get mode * (1 + k2 * sh)
          * (1 + k3 * w) * v) := by
    show ewma (distance_weighted_base prices distances) prev alpha
        * (1 + k1 * s) * logistics_map_get mode * (1 + k2 * sh)
        * (1 + k3 * w) * v = _
    ring
  refine ⟨h1, fun l hl => ?_⟩
  rw [hl.prod_eq]
  refine h1.trans ?_
  simp only [List.prod_cons, List.prod_nil]
  ring

/-- C3 witness: at a concrete input the point estimate equals the smoothed
base times the factors taken in reversed order. -/
theorem estimate_point_product_witness :
    (estimate [(("A":String), (100:ℚ))] [] none 1 "retail" 1 2 1
        (12/100) (8/100) (12/100) (2/5)).1 =
      ewma (distance_weighted_base [(("A":String), (100:ℚ))] []) none (2/5) *
        ([1 + (12:ℚ)/100 * 1, logistics_map_get "retail", 1 + (8:ℚ)/100 * 1,
          1 + (12:ℚ)/100 * 1, 2] : List ℚ).reverse.prod :=
  (estimate_point_product [("A", 100)] [] none 1 "retail" 1 2 1
      (12/100) (8/100) (12/100) (2/5)).2
    ([1 + (12:ℚ)/100 * 1, logistics_map_get "retail", 1 + (8:ℚ)/100 * 1,
      1 + (12:ℚ)/100 * 1, 2] : List ℚ).reverse (List.reverse_perm _)

/-- C4. The band returned by `estimate` (estimator.py lines 54-65) is
`(p_hat - sigma, p_hat + sigma)` with the fallback
`sigma = max(0.5, 0.03*p_hat)` (rationals are always finite, so the
`isfinite` branch of line 55 is always taken in the model); this sigma is
strictly positive, so the band strictly contains the point estimate. -/
theorem estimate_band_spec (prices distances : List (String × ℚ))
    (prev : Option ℚ) (s : ℚ) (mode : String) (sh v w k1 k2 k3 alpha : ℚ) :
    (estimate prices distances prev s mode sh v w k1 k2 k3 alpha).2.1 =
      ((estimate prices distances prev s mode sh v w k1 k2 k3 alpha).1 -
        max (1/2) (3/100 *
          (estimate prices distances prev s mode sh v w k1 k2 k3 alpha).1),
       (estimate prices distances prev s mode sh v w k1 k2 k3 alpha).1 +
        max (1/2) (3/100 *
          (estimate prices distances prev s mode sh v w k1 k2 k3 alpha).1)) ∧
    0 < max (1/2) (3/100 *
        (estimate prices distances prev s mode sh v w k1 k2 k3 alpha).1) ∧
    (estimate prices distances prev s mode sh v w k1 k2 k3 alpha).2.1.1 <
      (estimate prices distances prev s mode sh v w k1 k2 k3 alpha).1 ∧
    (estimate prices distances prev s mode sh v w k1 k2 k3 alpha).1 <
      (estimate prices distances prev s mode sh v w k1 k2 k3 alpha).2.1.2 := by
  set p := (estimate prices distances prev s mode sh v w k1 k2 k3 alpha).1 with hp
  have hb : (estimate prices distances prev s mode sh v w k1 k2 k3 alpha).2.1 =
      (p - max (1/2) (3/100 * p), p + max (1/2) (3/100 * p)) := rfl
  have hσ : 0 < max (1/2) (3/100 * p) :=
    lt_of_lt_of_le (by norm_num) (le_max_left _ _)
  refine ⟨hb, hσ, ?_, ?_⟩
  · rw [hb]; dsimp only; linarith
  · rw [hb]; dsimp only; linarith

/-- Evaluation of `distance_weighted_base` on scenario 1 of the spec. -/
lemma dwb_scenario1 :
    distance_weighted_base [("A", 100), ("B", 90)] [("A", 0), ("B", 50)]
      = 2595/26 := by
  simp +decide only [distance_weighted_base, weight, dictGet, List.map_cons,
    List.map_nil, List.sum_cons, List.sum_nil]
  norm_num

/-- Rounding half-up case of `roundHalfEven`: when the fractional part
exceeds one half the result is the floor plus one. -/
lemma roundHalfEven_up (q : ℚ) (n : ℤ) (h1 : ⌊q⌋ = n) (h2 : 1/2 < q - n) :
    roundHalfEven q = n + 1 := by
  unfold roundHalfEven
  dsimp only
  rw [h1, if_neg (by linarith), if_pos h2]

/-- The 3-decimal rounding of 2595/26 = 99.80769… is 99.808. -/
lemma pyRound3_scenario1 : pyRound3 ((2595:ℚ)/26) = 99808/1000 := by
  unfold pyRound3
  rw [roundHalfEven_up ((2595:ℚ)/26 * 1000) 99807 ?_ (by norm_num)]
  · norm_num
  · rw [Int.floor_eq_iff]
    constructor
    · norm_num
    · norm_num

/-- C5 counterexample: at a concrete input the value the route persists
(prices.py lines 119-126, namely `explain["base_smoothed"]`, the smoothed
base rounded to 3 decimals) differs from the exact
`ewma(new_raw, previous_value)`: the exact smoothed base is
2595/26 ≈ 99.8077, while the persisted value is 99.808. The claimed
4-tuple also does not exist: `estimate` returns the triple
`(p_hat, band, explain)` (estimator.py line 65). -/
theorem persisted_base_not_exact_ewma :
    persistedBase [("A", 100), ("B", 90)] [("A", 0), ("B", 50)]
        none 0 "wholesale" 0 1 0 = 99808/1000 ∧
    ewma (distance_weighted_base [("A", 100), ("B", 90)] [("A", 0), ("B", 50)])
        none defaultAlpha = 2595/26 ∧
    (99808:ℚ)/1000 ≠ 2595/26 := by
  have hsmooth : ewma (distance_weighted_base [("A", 100), ("B", 90)]
      [("A", 0), ("B", 50)]) none defaultAlpha = 2595/26 := by
    show distance_weighted_base [("A", 100), ("B", 90)] [("A", 0), ("B", 50)]
      = 2595/26
    exact dwb_scenario1
  refine ⟨?_, hsmooth, by norm_num⟩
  show pyRound3 (ewma (distance_weighted_base [("A", 100), ("B", 90)]
      [("A", 0), ("B", 50)]) none defaultAlpha) = 99808/1000
  rw [hsmooth]
  exact pyRound3_scenario1

/-- C5 amended: `estimate` returns a 3-tuple whose last component is the
explain record; the smoothed base appears there rounded to 3 decimals,
and the value the caller persists equals
`round(ewma(new_raw, previous_value), 3)` — the exact ewma value subjected
to the 3-decimal rounding of the explain dict, and nothing else. -/
theorem persisted_base_eq_rounded_ewma (prices distances : List (String × ℚ))
    (prev : Option ℚ) (s : ℚ) (mode : String) (sh v w : ℚ) :
    (∀ k1 k2 k3 alpha : ℚ,
      (estimate prices distances prev s mode sh v w k1 k2 k3
          alpha).2.2.base_smoothed =
        pyRound3 (ewma (distance_weighted_base prices distances) prev alpha)) ∧
    persistedBase prices distances prev s mode sh v w =
      pyRound3 (ewma (distance_weighted_base prices distances) prev
        defaultAlpha) :=
  ⟨fun _ _ _ _ => rfl, rfl⟩

/-- C7 counterexample: on scenario 1 the returned value is 2595/26 =
99.80769…, whose 3-decimal rounding is 99.808; it is not within 0.003 of
the 99.804 stated by the spec. -/
theorem scenario1_not_99804 :
    distance_weighted_base [("A", 100), ("B", 90)] [("A", 0), ("B", 50)]
      = 2595/26 ∧
    pyRound3 ((2595:ℚ)/26) = 99808/1000 ∧
    ¬ |(2595:ℚ)/26 - 99804/1000| ≤ 3/1000 := by
  refine ⟨dwb_scenario1, pyRound3_scenario1, not_le.mpr ?_⟩
  rw [abs_of_pos (by norm_num : (0:ℚ) < 2595/26 - 99804/1000)]
  norm_num

/-- C7 amended: scenario 1 gives weights 1.0 for A and 1/51 for B, and the
returned value is exactly `(100*1 + 90/51) / (1 + 1/51) = 2595/26`, which
is approximately 99.808 (not 99.804). -/
theorem scenario1_value :
    weight [("A", 0), ("B", 50)] "A" = 1 ∧
    weight [("A", 0), ("B", 50)] "B" = 1/51 ∧
    distance_weighted_base [("A", 100), ("B", 90)] [("A", 0), ("B", 50)]
      = (100 * 1 + 90/51) / (1 + 1/51) ∧
    ((100 * 1 + 90/51) / (1 + 1/51) : ℚ) = 2595/26 ∧
    |(2595:ℚ)/26 - 99808/1000| < 1/1000 := by
  refine ⟨?_, ?_, dwb_scenario1.trans (by norm_num), by norm_num, ?_⟩
  · simp +decide only [weight, dictGet]
    norm_num
  · simp +decide only [weight, dictGet]
    norm_num
  · rw [abs_lt]
    constructor
    · norm_num
    · norm_num

/-- Every logistics multiplier in the table, and the fallback, is strictly
positive. -/
lemma logistics_map_get_pos (mode : String) : 0 < logistics_map_get mode := by
  unfold logistics_map_get
  split_ifs
  · norm_num
  · norm_num
  · norm_num
  · norm_num

/-- C6 counterexample: with empty prices (and the default, positive
k-values) the point estimate is 0 whatever the season index, so raising
the season index from 0 to 1 while holding every other input fixed does
not strictly increase the point estimate. -/
theorem estimate_not_strict_mono_season :
    ¬ ((estimate [] [] none 0 "wholesale" 0 1 0
          defaultK1 defaultK2 defaultK3 defaultAlpha).1 <
       (estimate [] [] none 1 "wholesale" 0 1 0
          defaultK1 defaultK2 defaultK3 defaultAlpha).1) := by
  have hbase : ewma (distance_weighted_base [] []) none defaultAlpha = 0 := by
    show distance_weighted_base [] [] = 0
    simp [distance_weighted_base]
  have h0 : (estimate [] [] none 0 "wholesale" 0 1 0
      defaultK1 defaultK2 defaultK3 defaultAlpha).1 = 0 := by
    show ewma (distance_weighted_base [] []) none defaultAlpha
        * (1 + defaultK1 * 0) * logistics_map_get "wholesale"
        * (1 + defaultK2 * 0) * (1 + defaultK3 * 0) * 1 = 0
    rw [hbase]; ring
  have h1 : (estimate [] [] none 1 "wholesale" 0 1 0
      defaultK1 defaultK2 defaultK3 defaultAlpha).1 = 0 := by
    show ewma (distance_weighted_base [] []) none defaultAlpha
        * (1 + defaultK1 * 1) * logistics_map_get "wholesale"
        * (1 + defaultK2 * 0) * (1 + defaultK3 * 0) * 1 = 0
    rw [hbase]; ring
  rw [h0, h1]
  exact lt_irrefl 0

/-- C6 amended: with positive k1, k2, k3, and provided the smoothed base,
the variety factor and each of the three index multipliers are strictly
positive, strictly increasing any one of the season, shock or weather
indices (holding everything else fixed) strictly increases the point
estimate. The positivity provisos are necessary: with empty prices the
smoothed base is 0 and the point estimate stays 0. -/
theorem estimate_strict_mono_indices (prices distances : List (String × ℚ))
    (prev : Option ℚ) (mode : String) (s sh w v k1 k2 k3 alpha : ℚ)
    (hk1 : 0 < k1) (hk2 : 0 < k2) (hk3 : 0 < k3)
    (hbase : 0 < ewma (distance_weighted_base prices distances) prev alpha)
    (hv : 0 < v) (hs : 0 < 1 + k1 * s) (hsh : 0 < 1 + k2 * sh)
    (hw : 0 < 1 + k3 * w) :
    (∀ s2, s < s2 →
      (estimate prices distances prev s mode sh v w k1 k2 k3 alpha).1 <
      (estimate prices distances prev s2 mode sh v w k1 k2 k3 alpha).1) ∧
    (∀ sh2, sh < sh2 →
      (estimate prices distances prev s mode sh v w k1 k2 k3 alpha).1 <
      (estimate prices distances prev s mode sh2 v w k1 k2 k3 alpha).1) ∧
    (∀ w2, w < w2 →
      (estimate prices distances prev s mode sh v w k1 k2 k3 alpha).1 <
      (estimate prices distances prev s mode sh v w2 k1 k2 k3 alpha).1) := by
  set B := ewma (distance_weighted_base prices distances) prev alpha with hB
  set L := logistics_map_get mode with hLdef
  have hL : 0 < L := logistics_map_get_pos mode
  have hp : ∀ σ τ ω : ℚ,
      (estimate prices distances prev σ mode τ v ω k1 k2 k3 alpha).1 =
        B * (1 + k1 * σ) * L * (1 + k2 * τ) * (1 + k3 * ω) * v :=
    fun σ τ ω => rfl
  refine ⟨fun s2 hlt => ?_, fun sh2 hlt => ?_, fun w2 hlt => ?_⟩
  · rw [hp s sh w, hp s2 sh w]
    have key : 1 + k1 * s < 1 + k1 * s2 := by nlinarith
    have hC : 0 < B * L * (1 + k2 * sh) * (1 + k3 * w) * v :=
      mul_pos (mul_pos (mul_pos (mul_pos hbase hL) hsh) hw) hv
    calc B * (1 + k1 * s) * L * (1 + k2 * sh) * (1 + k3 * w) * v
        = B * L * (1 + k2 * sh) * (1 + k3 * w) * v * (1 + k1 * s) := by ring
      _ < B * L * (1 + k2 * sh) * (1 + k3 * w) * v * (1 + k1 * s2) :=
          (mul_lt_mul_left hC).mpr key
      _ = B * (1 + k1 * s2) * L * (1 + k2 * sh) * (1 + k3 * w) * v := by ring
  · rw [hp s sh w, hp s sh2 w]
    have key : 1 + k2 * sh < 1 + k2 * sh2 := by nlinarith
    have hC : 0 < B * (1 + k1 * s) * L * (1 + k3 * w) * v :=
      mul_pos (mul_pos (mul_pos (mul_pos hbase hs) hL) hw) hv
    calc B * (1 + k1 * s) * L * (1 + k2 * sh) * (1 + k3 * w) * v
        = B * (1 + k1 * s) * L * (1 + k3 * w) * v * (1 + k2 * sh) := by ring
      _ < B * (1 + k1 * s) * L * (1 + k3 * w) * v * (1 + k2 * sh2) :=
          (mul_lt_mul_left hC).mpr key
      _ = B * (1 + k1 * s) * L * (1 + k2 * sh2) * (1 + k3 * w) * v := by ring
  · rw [hp s sh w, hp s sh w2]
    have key : 1 + k3 * w < 1 + k3 * w2 := by nlinarith
    have hC : 0 < B * (1 + k1 * s) * L * (1 + k2 * sh) * v :=
      mul_pos (mul_pos (mul_pos (mul_pos hbase hs) hL) hsh) hv
    calc B * (1 + k1 * s) * L * (1 + k2 * sh) * (1 + k3 * w) * v
        = B * (1 + k1 * s) * L * (1 + k2 * sh) * v * (1 + k3 * w) := by ring
      _ < B * (1 + k1 * s) * L * (1 + k2 * sh) * v * (1 + k3 * w2) :=
          (mul_lt_mul_left hC).mpr key
      _ = B * (1 + k1 * s) * L * (1 + k2 * sh) * (1 + k3 * w2) * v := by ring

/-- C6 witness: at a concrete single-market input with positive base,
raising the season index from 0 to 1 strictly increases the point
estimate. -/
theorem estimate_strict_mono_indices_witness :
    (estimate [(("A":String), (100:ℚ))] [] none 0 "wholesale" 0 1 0
        (12/100) (8/100) (12/100) (2/5)).1 <
    (estimate [(("A":String), (100:ℚ))] [] none 1 "wholesale" 0 1 0
        (12/100) (8/100) (12/100) (2/5)).1 :=
  (estimate_strict_mono_indices [("A", 100)] [] none "wholesale" 0 0 0 1
      (12/100) (8/100) (12/100) (2/5)
      (by norm_num) (by norm_num) (by norm_num)
      (by show (0:ℚ) < distance_weighted_base [("A", 100)] []
          norm_num [distance_weighted_base, weight, dictGet])
      (by norm_num) (by norm_num) (by norm_num) (by norm_num)).1
    1 (by norm_num)

/-- Rounding-down case of `roundHalfEven`: when the fractional part is
below one half the result is the floor. -/
lemma roundHalfEven_down (q : ℚ) (n : ℤ) (h1 : ⌊q⌋ = n) (h2 : q - n < 1/2) :
    roundHalfEven q = n := by
  unfold roundHalfEven
  dsimp only
  rw [h1, if_pos h2]

/-- Rounding 1 to 3 decimals gives back 1. -/
lemma pyRound3_one : pyRound3 1 = 1 := by
  unfold pyRound3
  rw [roundHalfEven_down ((1:ℚ) * 1000) 1000 ?_ (by norm_num)]
  · norm_num
  · rw [Int.floor_eq_iff]
    constructor
    · norm_num
    · norm_num

/-- C8. For every string outside the logistics table, `estimate` treats
the mode as a neutral multiplier of exactly 1.00: the lookup falls back to
1.0, the point estimate coincides with the wholesale one, and the explain
record reports a logistics multiplier of 1. The inner quantifiers range
over completely unrestricted rational adjustment indices, so out-of-range
numeric indices are likewise accepted; the embedded `estimate` is a total
function, so no input considered here can raise. -/
theorem unknown_logistics_mode_neutral (mode : String)
    (h1 : mode ≠ "farmgate") (h2 : mode ≠ "wholesale") (h3 : mode ≠ "retail") :
    logistics_map_get mode = 1 ∧
    ∀ (prices distances : List (String × ℚ)) (prev : Option ℚ)
      (s sh v w k1 k2 k3 alpha : ℚ),
      (estimate prices distances prev s mode sh v w k1 k2 k3 alpha).1 =
        (estimate prices distances prev s "wholesale" sh v w k1 k2 k3
          alpha).1 ∧
      (estimate prices distances prev s mode sh v w k1 k2 k3
          alpha).2.2.logistics_mult = 1 := by
  have hL : logistics_map_get mode = 1 := by
    unfold logistics_map_get
    rw [if_neg h1, if_neg h2, if_neg h3]
  have hws : logistics_map_get "wholesale" = 1 := rfl
  refine ⟨hL, fun prices distances prev s sh v w k1 k2 k3 alpha => ⟨?_, ?_⟩⟩
  · show ewma (distance_weighted_base prices distances) prev alpha
        * (1 + k1 * s) * logistics_map_get mode * (1 + k2 * sh)
        * (1 + k3 * w) * v =
      ewma (distance_weighted_base prices distances) prev alpha
        * (1 + k1 * s) * logistics_map_get "wholesale" * (1 + k2 * sh)
        * (1 + k3 * w) * v
    rw [hL, hws]
  · show pyRound3 (logistics_map_get mode) = 1
    rw [hL]
    exact pyRound3_one

/-- C8 witness: the mode string "express" is not in the table, yields the
neutral multiplier, and produces the wholesale point estimate. -/
theorem unknown_logistics_mode_neutral_witness :
    logistics_map_get "express" = 1 ∧
    (estimate [(("A":String), (100:ℚ))] [] none 0 "express" 0 1 0
        (12/100) (8/100) (12/100) (2/5)).1 =
      (estimate [(("A":String), (100:ℚ))] [] none 0 "wholesale" 0 1 0
        (12/100) (8/100) (12/100) (2/5)).1 ∧
    (estimate [(("A":String), (100:ℚ))] [] none 0 "express" 0 1 0
        (12/100) (8/100) (12/100) (2/5)).2.2.logistics_mult = 1 :=
  ⟨(unknown_logistics_mode_neutral "express"
      (by decide) (by decide) (by decide)).1,
   (unknown_logistics_mode_neutral "express"
      (by decide) (by decide) (by decide)).2
     [("A", 100)] [] none 0 0 1 0 (12/100) (8/100) (12/100) (2/5)⟩

/-- Data available to `compute_price_residuals` (tasks.py lines 93-156)
for a single day of the trailing window and a fixed location: the actual
price record at the location for that day (if any), the dict of market
prices found for the core markets on that day (only markets with a record
appear), and the weather index (defaulting to 0 when no weather record
exists). -/
structure DayData where
  actual : Option ℚ
  marketPrices : List (String × ℚ)
  weather_index : ℚ

/-- The simplified static distances used by the calibration task
(tasks.py line 112). -/
def residualDistances : List (String × ℚ) :=
  [("Nairobi", 100), ("Nakuru", 80), ("Nyeri", 60)]

/-- One iteration of the day loop of `compute_price_residuals` (tasks.py
lines 107-152): a day contributes the pair `(actual, p_hat)` only when an
actual price record exists (line 107) and at least two market prices were
found (line 124); the estimate is computed with the default season, mode,
shock and variety arguments and the weather index of the day (lines 144-149). -/
def dayPair (prev_base : Option ℚ) (day : DayData) : Option (ℚ × ℚ) :=
  day.actual.bind fun a =>
    if day.marketPrices.length < 2 then none
    else some (a, (estimate day.marketPrices residualDistances prev_base
      0 "wholesale" 0 1 day.weather_index
      defaultK1 defaultK2 defaultK3 defaultAlpha).1)

/-- The list of `(actual, estimated)` pairs collected over the trailing
window for one location (tasks.py lines 93-156). -/
def collectPairs (prev_base : Option ℚ) (days : List DayData) :
    List (ℚ × ℚ) :=
  days.filterMap (dayPair prev_base)

/-- Per-location sigma update of `compute_price_residuals` (tasks.py lines
158-181), abstracted over `std` (numpy population standard deviation
`np.std`, an external numerical routine whose value is irrelevant to the
control flow modelled here). When at least 10 pairs were collected the
persisted sigma becomes `std` of the residuals `actual - estimated` and
the location is reported as updated (`true`); otherwise the stored sigma
is returned unchanged and the location is reported as skipped (`false`,
the insufficient-data log branch of line 181 — not the failure branch of
line 183). -/
def calibrateLocation (std : List ℚ → ℚ) (days : List DayData)
    (prev_base oldSigma : Option ℚ) : Option ℚ × Bool :=
  let pairs := collectPairs prev_base days
  if 10 ≤ pairs.length then
    (some (std (pairs.map fun ae => ae.1 - ae.2)), true)
  else
    (oldSigma, false)

/-- C9. A day contributes a pair only if an actual price exists for the
day and at least two market prices exist for the day; and whenever fewer
than 10 valid pairs are collected, the persisted sigma is returned
unchanged and the location is reported as skipped, not failed. -/
theorem calibrate_skip (std : List ℚ → ℚ) (days : List DayData)
    (prev_base oldSigma : Option ℚ) :
    (∀ day ∈ days, (dayPair prev_base day).isSome →
        day.actual.isSome ∧ 2 ≤ day.marketPrices.length) ∧
    ((collectPairs prev_base days).length < 10 →
        calibrateLocation std days prev_base oldSigma = (oldSigma, false)) := by
  constructor
  · intro day _ hsome
    cases hact : day.actual with
    | none => simp [dayPair, hact] at hsome
    | some a =>
      refine ⟨by simp [hact], ?_⟩
      by_cases hlen : day.marketPrices.length < 2
      · simp [dayPair, hact, hlen] at hsome
      · omega
  · intro hlt
    unfold calibrateLocation
    dsimp only
    rw [if_neg (by omega)]

/-- C9 witness: with no usable days (and any std function) the stored
sigma survives and the location is reported as skipped. -/
theorem calibrate_skip_witness :
    calibrateLocation (fun _ => 0) [] none (some 2) = (some 2, false) :=
  (calibrate_skip (fun _ => 0) [] none (some 2)).2 (by decide)

/-- Bounds on the weighted sum: when every price in the list lies in
`[lo, hi]`, the weighted price sum lies between `lo` and `hi` times the
weight sum. -/
lemma weighted_sum_bounds (lo hi : ℚ) (distances : List (String × ℚ)) :
    ∀ l : List (String × ℚ), (∀ mp ∈ l, lo ≤ mp.2 ∧ mp.2 ≤ hi) →
      lo * (l.map fun mp => weight distances mp.1).sum ≤
        (l.map fun mp => weight distances mp.1 * mp.2).sum ∧
      (l.map fun mp => weight distances mp.1 * mp.2).sum ≤
        hi * (l.map fun mp => weight distances mp.1).sum := by
  intro l
  induction l with
  | nil => intro _; simp
  | cons a t ih =>
    intro h
    have ha := h a (List.mem_cons_self a t)
    have ht := ih fun mp hmp => h mp (List.mem_cons_of_mem a hmp)
    have hw := weight_pos distances a.1
    simp only [List.map_cons, List.sum_cons]
    constructor
    · nlinarith [ht.1, ha.1]
    · nlinarith [ht.2, ha.2]

/-- C10. For a non-empty prices map the returned value lies between the
minimum and the maximum of the values in prices (inclusive): every weight is
strictly positive and the divisor is the genuine weight sum. -/
theorem distance_weighted_base_between (prices distances : List (String × ℚ))
    (lo hi : ℚ)
    (hmin : (prices.map Prod.snd).minimum = (lo : WithTop ℚ))
    (hmax : (prices.map Prod.snd).maximum = (hi : WithBot ℚ)) :
    lo ≤ distance_weighted_base prices distances ∧
    distance_weighted_base prices distances ≤ hi := by
  rw [List.minimum_eq_coe_iff] at hmin
  rw [List.maximum_eq_coe_iff] at hmax
  obtain ⟨mp0, hmp0, -⟩ := List.mem_map.mp hmin.1
  have hne : prices ≠ [] := List.ne_nil_of_mem hmp0
  have hz := weights_sum_pos prices distances hne
  have hbounds := weighted_sum_bounds lo hi distances prices fun mp hmp =>
    ⟨hmin.2 mp.2 (List.mem_map_of_mem Prod.snd hmp),
     hmax.2 mp.2 (List.mem_map_of_mem Prod.snd hmp)⟩
  rw [distance_weighted_base_nonempty prices distances hne]
  constructor
  · rw [le_div_iff₀ hz]
    exact hbounds.1
  · rw [div_le_iff₀ hz]
    exact hbounds.2

/-- C10 witness: on scenario 1 the result lies between the price minimum
90 and maximum 100. -/
theorem distance_weighted_base_between_witness :
    (90:ℚ) ≤ distance_weighted_base [("A", 100), ("B", 90)]
        [("A", 0), ("B", 50)] ∧
    distance_weighted_base [("A", 100), ("B", 90)] [("A", 0), ("B", 50)]
      ≤ 100 :=
  distance_weighted_base_between [("A", 100), ("B", 90)] [("A", 0), ("B", 50)]
    90 100 (by decide) (by decide)

end PotatoPrice
